import Mathlib

/-!
Shallow embedding of the `logger` Go package (github.com/Thomasdezeeuw/logger)
and proofs about it.

The embedding follows `log.go` (the 2015-2016 revision, the one with the
`drain` helper), `tags.go`, `internal/util/util.go` and the event/eventtype
file.  Go channels are modelled by the list of values accepted on them, in
acceptance order; a goroutine processing a channel becomes a function over
that list; Go `panic` and out-of-range indexing become `Option`/`Except`
results; Go interface values become explicit records of the capabilities the
code inspects.
-/

namespace Logger

/-- Constant `maxNWriteErrors` from log.go: the retry bound for `Write`. -/
def maxNWriteErrors : Nat := 5

/-- Constant `defaultStackSize` from log.go (2016 revision): `4 * 1024`. -/
def defaultStackSize : Nat := 4 * 1024

/-- Go `error` values as the logger observes them: the distinguished
`ErrBadEventWriter`, or any other error carrying its message. -/
inductive LogError where
  | badEventWriter : LogError
  | otherError (msg : String) : LogError
deriving DecidableEq, Repr

/-- Message of a `LogError`; for `badEventWriter` this mirrors
`fmt.Errorf("EventWriter is bad, %d faulty writes, EventWriter will be dropped", maxNWriteErrors)`. -/
def LogError.message : LogError → String
  | .badEventWriter =>
      "EventWriter is bad, " ++ toString maxNWriteErrors ++
        " faulty writes, EventWriter will be dropped"
  | .otherError msg => msg

/-- An `EventWriter` backend (interface in log.go), with explicit state `σ`:
`Write` may fail with an error, `HandleError` and `Close` as in the Go
interface. -/
structure EventWriter (σ : Type) (Ev : Type) where
  write : σ → Ev → σ × Option LogError
  handleError : σ → LogError → σ
  close : σ → σ × Option LogError

/-- Observable calls made on one `EventWriter` (the writer side of the trace). -/
inductive WCall (Ev : Type) where
  | write (e : Ev) (res : Option LogError) : WCall Ev
  | handleError (err : LogError) : WCall Ev
deriving DecidableEq, Repr

/-- Loop body of `writeEvent` (log.go): up to `n` remaining attempts, call
`Write`; on success stop, on failure call `HandleError` with the underlying
error and retry; with attempts exhausted return `ErrBadEventWriter`.
Returns the final writer state, the trace of calls, and the result. -/
def writeEventLoop (ew : EventWriter σ Ev) (event : Ev) :
    Nat → σ → σ × List (WCall Ev) × Option LogError
  | 0, s => (s, [], some .badEventWriter)
  | Nat.succ n, s =>
    match ew.write s event with
    | (s1, none) => (s1, [WCall.write event none], none)
    | (s1, some err) =>
      let s2 := ew.handleError s1 err
      let r := writeEventLoop ew event n s2
      (r.1, WCall.write event (some err) :: WCall.handleError err :: r.2.1, r.2.2)

/-- Function `writeEvent` from log.go: try the write up to `maxNWriteErrors`
times; it returns either `nil` or `ErrBadEventWriter`. -/
def writeEvent (ew : EventWriter σ Ev) (event : Ev) (s : σ) :
    σ × List (WCall Ev) × Option LogError :=
  writeEventLoop ew event maxNWriteErrors s

/-- Function `startEventWriter` from log.go, over the list of events accepted
on the writer's sub-channel: process events in order with `writeEvent`; on a
(necessarily `ErrBadEventWriter`) failure, call `HandleError` with it, drain
the remaining events (`drain` in log.go: consumed, no calls made) and stop.
Returns final state, call trace, the drained (discarded) events, and whether
the writer went bad. -/
def startEventWriterGo (ew : EventWriter σ Ev) :
    List Ev → σ → σ × List (WCall Ev) × List Ev × Bool
  | [], s => (s, [], [], false)
  | e :: rest, s =>
    match writeEvent ew e s with
    | (s1, tr, none) =>
      let r := startEventWriterGo ew rest s1
      (r.1, tr ++ r.2.1, r.2.2.1, r.2.2.2)
    | (s1, tr, some err) =>
      (ew.handleError s1 err, tr ++ [WCall.handleError err], rest, true)

/-- Events successfully delivered in a writer call trace, in order. -/
def successfulWrites : List (WCall Ev) → List Ev :=
  List.filterMap fun c =>
    match c with
    | .write e none => some e
    | _ => none

/-- State transformation of one failed attempt: the state after `Write`
followed by `HandleError` with the returned error (used to phrase the trace of
an always-failing writer). -/
def failStep (ew : EventWriter σ Ev) (f : σ → Ev → σ) (g : σ → Ev → LogError)
    (e : Ev) (s : σ) : σ :=
  ew.handleError (f s e) (g s e)

/-- Concrete writer whose `Write` always fails, for evaluating the retry bound. -/
def alwaysFailWriter : EventWriter Nat Nat where
  write := fun s _ => (s + 1, some (LogError.otherError "boom"))
  handleError := fun s _ => s
  close := fun s => (s, none)

/-- A writer that records every event it is asked to write and never fails. -/
def recordingWriter : EventWriter (List Nat) Nat where
  write := fun s e => (s ++ [e], none)
  handleError := fun s _ => s
  close := fun s => (s, none)

/-- Observable calls of the whole pipeline: calls made on writer number `i`
by its worker goroutine, and the `Close` call on writer number `i`. -/
inductive SysCall (Ev : Type) where
  | writerCall (i : Nat) (c : WCall Ev) : SysCall Ev
  | closeWriter (i : Nat) (res : Option LogError) : SysCall Ev
deriving DecidableEq, Repr

/-- Fan-out of `writeEvents` (log.go): every writer's sub-channel receives the
whole ingress sequence, and each worker (`startEventWriter`) runs to
completion on it; `wg.Wait()` completing all workers is the model's
sequencing.  Returns each writer with its final state, and the tagged traces.
The index argument numbers the writers. -/
def writeEventsGo (events : List Ev) :
    Nat → List (EventWriter σ Ev × σ) →
      List (EventWriter σ Ev × σ) × List (SysCall Ev)
  | _, [] => ([], [])
  | i, (ew, s) :: rest =>
    let r := startEventWriterGo ew events s
    let rr := writeEventsGo events (i + 1) rest
    ((ew, r.1) :: rr.1, r.2.1.map (SysCall.writerCall i) ++ rr.2)

/-- Close loop of `Close` (log.go): call `Close` on every writer in
registration order, keeping the first non-nil error (`if er != nil && err == nil`). -/
def closeWritersGo :
    Nat → List (EventWriter σ Ev × σ) → List (SysCall Ev) × Option LogError
  | _, [] => ([], none)
  | i, (ew, s) :: rest =>
    let c := ew.close s
    let rr := closeWritersGo (i + 1) rest
    (SysCall.closeWriter i c.2 :: rr.1,
      match c.2 with
      | some er => some er
      | none => rr.2)

/-- The package-level `Close` (log.go): `close(eventChannel)` makes the
ingress list final; `<-eventChannelClosed` blocks until `writeEvents` (and
hence, via `wg.Wait()`, every worker) has finished; only then every
`EventWriter` is closed in registration order. -/
def CloseGo (ws : List (EventWriter σ Ev × σ)) (events : List Ev) :
    List (SysCall Ev) × Option LogError :=
  let w := writeEventsGo events 0 ws
  let c := closeWritersGo 0 w.1
  (w.2 ++ c.1, c.2)

/-- Worker calls on writer `i` in a pipeline trace, in order. -/
def writerCallsOf (i : Nat) : List (SysCall Ev) → List (WCall Ev) :=
  List.filterMap fun c =>
    match c with
    | .writerCall j wc => if j = i then some wc else none
    | _ => none

/-- Go `interface{}` value as inspected by `util.InterfaceToString`: for each
case of the type switch, whether the dynamic value matches it and what that
case would produce (`string` content, `String()` result, decoded `[]byte`,
`Error()` result), plus the `fmt.Sprintf("%v", ...)` default rendering. -/
structure GoValue where
  asString : Option String
  stringerOut : Option String
  asBytes : Option String
  errorOut : Option String
  defaultFmt : String
deriving DecidableEq, Repr

/-- Function `InterfaceToString` from internal/util/util.go: the type switch,
cases in source order (`string`, `fmt.Stringer`, `[]byte`, `error`), default
`fmt.Sprintf("%v", value)`. -/
def InterfaceToString (v : GoValue) : String :=
  match v.asString with
  | some s => s
  | none =>
    match v.stringerOut with
    | some s => s
    | none =>
      match v.asBytes with
      | some s => s
      | none =>
        match v.errorOut with
        | some s => s
        | none => v.defaultFmt

/-- A `GoValue` whose dynamic type is `[]byte` (as `Fatal` stores the stack
trace); `%v` of a byte slice is irrelevant to the claims and kept as the
decoded content. -/
def bytesValue (s : String) : GoValue :=
  { asString := none, stringerOut := none, asBytes := some s,
    errorOut := none, defaultFmt := s }

/-- The mutable pair `eventTypeNames`/`eventTypeIndices` from the event file. -/
structure EventTypeTable where
  eventTypeNames : String
  eventTypeIndices : List Nat
deriving DecidableEq, Repr

/-- Default table (2015-2016 revision): seven registered types
`Debug, Info, Warn, Error, Fatal, Thumb, Log` and eight boundary indices. -/
def defaultEventTypeTable : EventTypeTable where
  eventTypeNames := "DebugInfoWarnErrorFatalThumbLog"
  eventTypeIndices := [0, 5, 9, 13, 18, 23, 28, 31]

/-- Function `isDefinedEventType`: `int(eventType) <= len(eventTypeIndices)-1`. -/
def isDefinedEventType (tbl : EventTypeTable) (t : Nat) : Bool :=
  decide ((t : Int) ≤ (tbl.eventTypeIndices.length : Int) - 1)

/-- Go string slicing `s[a:b]` (ASCII names, so character level is exact). -/
def stringSlice (s : String) (a b : Nat) : String :=
  String.mk ((s.toList.drop a).take (b - a))

/-- Method `EventType.String`: fallback `"EventType(%d)"` for undefined
types, otherwise `eventTypeNames[eventTypeIndices[t]:eventTypeIndices[t+1]]`;
`none` models Go's index-out-of-range panic. -/
def EventTypeString (tbl : EventTypeTable) (t : Nat) : Option String :=
  if isDefinedEventType tbl t then
    match tbl.eventTypeIndices[t]?, tbl.eventTypeIndices[t + 1]? with
    | some a, some b => some (stringSlice tbl.eventTypeNames a b)
    | _, _ => none
  else
    some ("EventType(" ++ toString t ++ ")")

/-- Tags (tags.go): a list of keyword strings. -/
abbrev Tags := List String

/-- Method `Tags.Bytes`: each tag followed by `", "`, with the final `", "`
dropped (empty tag list gives the empty slice). -/
def TagsBytes (tags : Tags) : List Char :=
  if tags.length = 0 then []
  else
    let buf := tags.foldl (fun buf tag => buf ++ tag.toList ++ [',', ' ']) []
    buf.take (buf.length - 2)

/-- Method `Tags.String`: `string(tags.Bytes())`. -/
def TagsString (tags : Tags) : String :=
  String.mk (TagsBytes tags)

/-- One character of `strconv.Quote` output, for printable input characters:
`"` and `\` are escaped with a backslash, other printable characters are kept
verbatim. -/
def quoteChar (c : Char) : List Char :=
  if c = '"' then ['\\', '"']
  else if c = '\\' then ['\\', '\\']
  else [c]

/-- Model of `strconv.Quote` restricted to printable input (no control or
non-printable characters, which Go would escape differently): the body with
`"`/`\` escaped, wrapped in double quotes. -/
def goQuote (s : List Char) : List Char :=
  '"' :: s.flatMap quoteChar ++ ['"']

/-- Body parser inverse to `goQuote`: consume until the closing quote, an
escaped character after each backslash. -/
def unquoteBody : List Char → Option (List Char)
  | [] => none
  | c :: rest =>
    if c = '"' then
      match rest with
      | [] => some []
      | _ :: _ => none
    else if c = '\\' then
      match rest with
      | [] => none
      | c2 :: rest2 => (unquoteBody rest2).map (c2 :: ·)
    else (unquoteBody rest).map (c :: ·)

/-- Model of `strconv.Unquote` on `goQuote`-shaped input. -/
def goUnquote : List Char → Option (List Char)
  | '"' :: rest => unquoteBody rest
  | _ => none

/-- Method `Tags.MarshalJSON`: `[]` for no tags, otherwise `[` then each tag
as `strconv.Quote(tag)` followed by `", "`, final `", "` replaced by `]`. -/
def TagsMarshalJSON (tags : Tags) : List Char :=
  if tags.length = 0 then ['[', ']']
  else
    let buf := tags.foldl (fun buf tag => buf ++ goQuote tag.toList ++ [',', ' ']) ['[']
    buf.take (buf.length - 2) ++ [']']

/-- Stand-in for `Timestamp.UTC().Format(TimeFormat)`: timestamps are
modelled as abstract instants (`Nat`), their rendering injective. -/
def formatTimeUTC (t : Nat) : String :=
  toString t

/-- Stand-in for `Timestamp.UTC().Format(time.RFC3339Nano)`. -/
def formatTimeNano (t : Nat) : String :=
  toString t

/-- An `Event` (event file): type, timestamp, tags, message, optional data.
Field names are the Go field names in lowercase (`Type` is a Lean keyword). -/
structure Event where
  eventType : Nat
  timestamp : Nat
  tags : Tags
  message : String
  data : Option GoValue
deriving DecidableEq, Repr

/-- Method `Event.String`:
`YYYY-MM-DD HH:MM:SS [TYPE] tag1, tag2: message` with `, data` appended when
`Data` is non-nil; `none` models the panic propagated from
`EventType.String`. -/
def EventString (tbl : EventTypeTable) (e : Event) : Option String :=
  match EventTypeString tbl e.eventType with
  | none => none
  | some tstr =>
    some (formatTimeUTC e.timestamp ++ " [" ++ tstr ++ "] " ++
      TagsString e.tags ++ ": " ++ e.message ++
      (match e.data with
       | none => ""
       | some d => ", " ++ InterfaceToString d))

/-- Method `Event.MarshalJSON`: `fmt.Sprintf` with `%q` on the type name,
timestamp and message, `Tags.MarshalJSON` for the tags, and a `"data"` field
(rendered via `InterfaceToString`, `%q`) only when `Data` is non-nil. -/
def EventMarshalJSON (tbl : EventTypeTable) (e : Event) : Option String :=
  match EventTypeString tbl e.eventType with
  | none => none
  | some tstr =>
    some ("\x7b\"type\": " ++ String.mk (goQuote tstr.toList) ++
      ", \"timestamp\": " ++ String.mk (goQuote (formatTimeNano e.timestamp).toList) ++
      ", \"tags\": " ++ String.mk (TagsMarshalJSON e.tags) ++
      ", \"message\": " ++ String.mk (goQuote e.message.toList) ++
      (match e.data with
       | none => ""
       | some d => ", \"data\": " ++ String.mk (goQuote (InterfaceToString d).toList)) ++
      "\x7d")

/-- EventType constants of the 2015-2016 revision (`iota` order). -/
def DebugEvent : Nat := 0

def InfoEvent : Nat := 1

def WarnEvent : Nat := 2

def ErrorEvent : Nat := 3

def FatalEvent : Nat := 4

def ThumbEvent : Nat := 5

def LogEvent : Nat := 6

/-- Package-level mutable state of log.go: the `started` flag, whether
`eventChannel` has been closed, and the events accepted on it, in order. -/
structure PkgState where
  started : Bool
  channelClosed : Bool
  queued : List Event
deriving DecidableEq, Repr

/-- Function `Start` (log.go): panics (modelled as `Except.error` with the
panic message) when already started or given no writers; otherwise sets the
started flag. -/
def StartGo (st : PkgState) (numWriters : Nat) : Except String PkgState :=
  if st.started then Except.error "logger: can only Start once"
  else if numWriters < 1 then
    Except.error "logger: need atleast a single EventWriter to write to"
  else Except.ok { st with started := true }

/-- Send on `eventChannel`: a send on the closed channel is a Go runtime
panic, otherwise the event is queued in acceptance order. -/
def sendEvent (st : PkgState) (e : Event) : Except String PkgState :=
  if st.channelClosed then Except.error "send on closed channel"
  else Except.ok { st with queued := st.queued ++ [e] }

/-- Operation `Debug` (log.go): `eventChannel <- Event{DebugEvent, now(), tags, msg, nil}`. -/
def Debug (now : Nat) (st : PkgState) (tags : Tags) (msg : String) :
    Except String PkgState :=
  sendEvent st ⟨DebugEvent, now, tags, msg, none⟩

/-- Operation `Info` (log.go). -/
def Info (now : Nat) (st : PkgState) (tags : Tags) (msg : String) :
    Except String PkgState :=
  sendEvent st ⟨InfoEvent, now, tags, msg, none⟩

/-- Operation `Warn` (log.go). -/
def Warn (now : Nat) (st : PkgState) (tags : Tags) (msg : String) :
    Except String PkgState :=
  sendEvent st ⟨WarnEvent, now, tags, msg, none⟩

/-- Operation `Error` (log.go): the message is `err.Error()`, supplied here
as the error's message string. -/
def ErrorLog (now : Nat) (st : PkgState) (tags : Tags) (errMsg : String) :
    Except String PkgState :=
  sendEvent st ⟨ErrorEvent, now, tags, errMsg, none⟩

/-- Operation `Fatal` (log.go): message is `util.InterfaceToString(recv)`,
data is the (stripped) stack trace bytes from `getStackTrace`. -/
def Fatal (now : Nat) (st : PkgState) (tags : Tags) (recv : GoValue)
    (stackTrace : List Char) : Except String PkgState :=
  sendEvent st ⟨FatalEvent, now, tags, InterfaceToString recv,
    some (bytesValue (String.mk stackTrace))⟩

/-- Operation `Thumbstone` (log.go): the message is built from
`runtime.Caller` (outside the embedding) and supplied here readily built. -/
def Thumbstone (now : Nat) (st : PkgState) (tags : Tags) (msg : String) :
    Except String PkgState :=
  sendEvent st ⟨ThumbEvent, now, tags, msg, none⟩

/-- Operation `Log` (log.go): `event.Timestamp = now()` then send; no other
field is touched. -/
def Log (now : Nat) (st : PkgState) (e : Event) : Except String PkgState :=
  sendEvent st { e with timestamp := now }

/-- Constant `newLine` from log.go. -/
def newLine : Char := '\n'

/-- Model of `runtime.Stack(buf, false)`: writes as much of the goroutine's
trace as fits and returns the number of bytes written. -/
def runtimeStack (bufLen : Nat) (trace : List Char) : Nat :=
  min trace.length bufLen

/-- Loop of `removeFnsFromStack`: from `startFithLine`, advance to the index
of the next newline (`bytes.IndexByte(stackTrace[startFithLine+1:], newLine)`)
up to the given number of times, stopping early when none is found. -/
def advanceNewlines (st : List Char) : Nat → Nat → Nat
  | pos, 0 => pos
  | pos, Nat.succ k =>
    match (st.drop (pos + 1)).findIdx? (fun c => c == newLine) with
    | some n => advanceNewlines st (pos + n + 1) k
    | none => pos

/-- Function `removeFnsFromStack` (log.go): drop the second through fifth
lines; `none` models the Go panic on `stackTrace[:-1]` when the trace holds
no newline at all. -/
def removeFnsFromStack (st : List Char) : Option (List Char) :=
  match st.findIdx? (fun c => c == newLine) with
  | none => none
  | some endFirstLine =>
    some (st.take endFirstLine ++ st.drop (advanceNewlines st endFirstLine 4))

/-- Loop of `getStackTrace` (log.go): call `runtime.Stack`; if the buffer was
filled completely, retry with a buffer twice as long.  Returns the buffer
sizes tried, and the stripped trace (fuel only rules out an infinite model
loop; the theorems supply enough). -/
def getStackTraceLoop (trace : List Char) : Nat → Nat → List Nat × Option (List Char)
  | 0, _ => ([], none)
  | Nat.succ fuel, bufLen =>
    if runtimeStack bufLen trace < bufLen then
      ([bufLen], removeFnsFromStack (trace.take (runtimeStack bufLen trace)))
    else
      let r := getStackTraceLoop trace fuel (2 * bufLen)
      (bufLen :: r.1, r.2)

/-- Function `getStackTrace` (log.go): start from `defaultStackSize`. -/
def getStackTrace (trace : List Char) (fuel : Nat) : List Nat × Option (List Char) :=
  getStackTraceLoop trace fuel defaultStackSize

/-! ## Theorems -/

theorem successfulWrites_append (l1 l2 : List (WCall Ev)) :
    successfulWrites (l1 ++ l2) = successfulWrites l1 ++ successfulWrites l2 :=
  List.filterMap_append l1 l2 _

theorem writeEventLoop_writes_eq (ew : EventWriter σ Ev) (e : Ev) :
    ∀ (n : Nat) (s : σ) (x : Ev) (res : Option LogError),
      WCall.write x res ∈ (writeEventLoop ew e n s).2.1 → x = e := by
  intro n
  induction n with
  | zero => intro s x res h; simp [writeEventLoop] at h
  | succ n ih =>
    intro s x res h
    rcases hw : ew.write s e with ⟨s1, rs⟩
    cases rs with
    | none =>
      simp [writeEventLoop, hw] at h
      exact h.1
    | some err =>
      rw [writeEventLoop] at h
      simp only [hw, List.mem_cons] at h
      rcases h with h | h | h
      · cases h; rfl
      · cases h
      · exact ih _ x res h

theorem writeEventLoop_result_none (ew : EventWriter σ Ev) (e : Ev) :
    ∀ (n : Nat) (s : σ), (writeEventLoop ew e n s).2.2 = none →
      successfulWrites (writeEventLoop ew e n s).2.1 = [e] := by
  intro n
  induction n with
  | zero => intro s h; simp [writeEventLoop] at h
  | succ n ih =>
    intro s h
    rcases hw : ew.write s e with ⟨s1, rs⟩
    cases rs with
    | none => simp [writeEventLoop, hw, successfulWrites]
    | some err =>
      rw [writeEventLoop] at h ⊢
      simp only [hw] at h ⊢
      simp only [successfulWrites, List.filterMap_cons] at ih ⊢
      exact ih _ h

theorem writeEventLoop_result_some (ew : EventWriter σ Ev) (e : Ev) :
    ∀ (n : Nat) (s : σ) (err : LogError),
      (writeEventLoop ew e n s).2.2 = some err →
      err = LogError.badEventWriter ∧
        successfulWrites (writeEventLoop ew e n s).2.1 = [] := by
  intro n
  induction n with
  | zero =>
    intro s err h
    simp [writeEventLoop] at h
    simp [writeEventLoop, successfulWrites, h.symm]
  | succ n ih =>
    intro s err h
    rcases hw : ew.write s e with ⟨s1, rs⟩
    cases rs with
    | none => rw [writeEventLoop] at h; simp [hw] at h
    | some er =>
      rw [writeEventLoop] at h ⊢
      simp only [hw] at h ⊢
      rcases ih _ _ h with ⟨h1, h2⟩
      refine ⟨h1, ?_⟩
      simp only [successfulWrites, List.filterMap_cons] at h2 ⊢
      exact h2

/-- C2: every event writer that has not become bad observes exactly the
sequence of events accepted on its sub-channel (the ingress order fanned out
by `writeEvents`), in order; once a writer has become bad it receives zero
further `Write` calls (the trace ends at the `ErrBadEventWriter`
`HandleError`), and all events subsequently queued for it are drained and
discarded, never delivered. -/
theorem startEventWriter_order_and_drain {σ Ev : Type} (ew : EventWriter σ Ev)
    (events : List Ev) (s : σ) :
    ((startEventWriterGo ew events s).2.2.2 = false →
      (startEventWriterGo ew events s).2.2.1 = [] ∧
      successfulWrites (startEventWriterGo ew events s).2.1 = events) ∧
    ((startEventWriterGo ew events s).2.2.2 = true →
      ∃ k, k < events.length ∧
        (startEventWriterGo ew events s).2.2.1 = events.drop (k + 1) ∧
        successfulWrites (startEventWriterGo ew events s).2.1 = events.take k ∧
        (∀ x res, WCall.write x res ∈ (startEventWriterGo ew events s).2.1 →
          x ∈ events.take (k + 1)) ∧
        ∃ tr0, (startEventWriterGo ew events s).2.1 =
          tr0 ++ [WCall.handleError LogError.badEventWriter]) := by
  induction events generalizing s with
  | nil => simp [startEventWriterGo, successfulWrites]
  | cons e rest ih =>
    rcases hw : writeEvent ew e s with ⟨s1, tr, res⟩
    cases res with
    | none =>
      have hsw : successfulWrites tr = [e] := by
        have := writeEventLoop_result_none ew e maxNWriteErrors s
        rw [show writeEventLoop ew e maxNWriteErrors s = writeEvent ew e s from rfl,
          hw] at this
        exact this rfl
      have hwr : ∀ x res, WCall.write x res ∈ tr → x = e := by
        intro x r hx
        have := writeEventLoop_writes_eq ew e maxNWriteErrors s x r
        rw [show writeEventLoop ew e maxNWriteErrors s = writeEvent ew e s from rfl,
          hw] at this
        exact this hx
      constructor
      · intro hbad
        rw [startEventWriterGo, hw] at hbad ⊢
        simp only at hbad ⊢
        rcases (ih s1).1 hbad with ⟨hdr, hss⟩
        exact ⟨hdr, by rw [successfulWrites_append, hsw, hss]; simp⟩
      · intro hbad
        rw [startEventWriterGo, hw] at hbad ⊢
        simp only at hbad ⊢
        rcases (ih s1).2 hbad with ⟨k, hk, hdr, hss, hwrites, tr0, htr0⟩
        refine ⟨k + 1, by simpa using Nat.succ_lt_succ hk, hdr, ?_, ?_, tr ++ tr0, ?_⟩
        · rw [successfulWrites_append, hsw, hss]; rfl
        · intro x r hx
          rcases List.mem_append.1 hx with hx | hx
          · simp [hwr x r hx]
          · simp only [List.take_succ_cons, List.mem_cons]
            right
            exact hwrites x r hx
        · rw [htr0, List.append_assoc]
    | some err =>
      have herr : err = LogError.badEventWriter ∧ successfulWrites tr = [] := by
        have := writeEventLoop_result_some ew e maxNWriteErrors s err
        rw [show writeEventLoop ew e maxNWriteErrors s = writeEvent ew e s from rfl,
          hw] at this
        exact this rfl
      have hwr : ∀ x res, WCall.write x res ∈ tr → x = e := by
        intro x r hx
        have := writeEventLoop_writes_eq ew e maxNWriteErrors s x r
        rw [show writeEventLoop ew e maxNWriteErrors s = writeEvent ew e s from rfl,
          hw] at this
        exact this hx
      constructor
      · intro hbad
        rw [startEventWriterGo, hw] at hbad
        simp at hbad
      · intro _
        rw [startEventWriterGo, hw]
        simp only
        refine ⟨0, by simp, by simp, ?_, ?_, tr, by rw [herr.1]⟩
        · rw [successfulWrites_append, herr.2]
          simp [successfulWrites]
        · intro x r hx
          rcases List.mem_append.1 hx with hx | hx
          · simp [hwr x r hx]
          · simp at hx

theorem startEventWriterGo_drained_suffix (ew : EventWriter σ Ev) :
    ∀ (events : List Ev) (s : σ),
      ∃ k, k ≤ events.length ∧
        (startEventWriterGo ew events s).2.2.1 = events.drop k := by
  intro events
  induction events with
  | nil => intro s; exact ⟨0, by simp [startEventWriterGo]⟩
  | cons e rest ih =>
    intro s
    rcases hw : writeEvent ew e s with ⟨s1, tr, res⟩
    cases res with
    | none =>
      rcases ih s1 with ⟨k, hk, hdr⟩
      refine ⟨k + 1, Nat.succ_le_succ hk, ?_⟩
      rw [startEventWriterGo, hw]
      simpa using hdr
    | some err =>
      refine ⟨1, by simp, ?_⟩
      rw [startEventWriterGo, hw]
      rfl

theorem writeEventsGo_fst (events : List Ev) :
    ∀ (base : Nat) (ws : List (EventWriter σ Ev × σ)),
      (writeEventsGo events base ws).1 =
        ws.map fun p => (p.1, (startEventWriterGo p.1 events p.2).1) := by
  intro base ws
  induction ws generalizing base with
  | nil => rfl
  | cons p rest ih => rcases p with ⟨ew, s⟩; simp [writeEventsGo, ih]

theorem writeEventsGo_calls_shape (events : List Ev) :
    ∀ (base : Nat) (ws : List (EventWriter σ Ev × σ)) (c : SysCall Ev),
      c ∈ (writeEventsGo events base ws).2 →
        ∃ i wc, c = SysCall.writerCall i wc ∧ base ≤ i := by
  intro base ws
  induction ws generalizing base with
  | nil => intro c hc; simp [writeEventsGo] at hc
  | cons p rest ih =>
    rcases p with ⟨ew, s⟩
    intro c hc
    rw [writeEventsGo] at hc
    rcases List.mem_append.1 hc with hc | hc
    · rcases List.mem_map.1 hc with ⟨wc, _, rfl⟩
      exact ⟨base, wc, rfl, Nat.le_refl base⟩
    · rcases ih (base + 1) c hc with ⟨i, wc, rfl, hi⟩
      exact ⟨i, wc, rfl, Nat.le_of_succ_le hi⟩

theorem writerCallsOf_append (i : Nat) (t1 t2 : List (SysCall Ev)) :
    writerCallsOf i (t1 ++ t2) = writerCallsOf i t1 ++ writerCallsOf i t2 :=
  List.filterMap_append t1 t2 _

theorem writerCallsOf_map_self (i : Nat) (tr : List (WCall Ev)) :
    writerCallsOf i (tr.map (SysCall.writerCall i)) = tr := by
  induction tr with
  | nil => rfl
  | cons c rest ih => simp [writerCallsOf, List.filterMap_cons] at ih ⊢; exact ih

theorem writerCallsOf_lt_base (events : List Ev) (i : Nat) :
    ∀ (base : Nat) (ws : List (EventWriter σ Ev × σ)), i < base →
      writerCallsOf i (writeEventsGo events base ws).2 = [] := by
  intro base ws hib
  rcases h : writerCallsOf i (writeEventsGo events base ws).2 with _ | ⟨c, rest⟩
  · rfl
  · exfalso
    have hmem : c ∈ writerCallsOf i (writeEventsGo events base ws).2 := by
      rw [h]; exact List.mem_cons_self ..
    rcases List.mem_filterMap.1 hmem with ⟨sc, hsc, hval⟩
    rcases writeEventsGo_calls_shape events base ws sc hsc with ⟨j, wc, rfl, hj⟩
    by_cases hji : j = i
    · omega
    · simp [writerCallsOf, hji] at hval

theorem writerCallsOf_writeEventsGo (events : List Ev) :
    ∀ (ws : List (EventWriter σ Ev × σ)) (base i : Nat) (h : i < ws.length),
      writerCallsOf (base + i) (writeEventsGo events base ws).2 =
        (startEventWriterGo (ws.get ⟨i, h⟩).1 events (ws.get ⟨i, h⟩).2).2.1 := by
  intro ws
  induction ws with
  | nil => intro base i h; exact absurd h (by simp)
  | cons p rest ih =>
    rcases p with ⟨ew, s⟩
    intro base i h
    cases i with
    | zero =>
      rw [writeEventsGo]
      simp only [Nat.add_zero]
      rw [writerCallsOf_append, writerCallsOf_map_self,
        writerCallsOf_lt_base events base (base + 1) rest (Nat.lt_succ_self base)]
      simp [List.get]
    | succ j =>
      have hj : j < rest.length := Nat.lt_of_succ_lt_succ h
      rw [writeEventsGo]
      simp only
      rw [writerCallsOf_append]
      have hne : ¬(base = base + (j + 1)) := by omega
      have h0 : writerCallsOf (base + (j + 1))
          ((startEventWriterGo ew events s).2.1.map (SysCall.writerCall base)) = [] := by
        clear ih
        induction (startEventWriterGo ew events s).2.1 with
        | nil => rfl
        | cons c rest2 ih2 =>
          simp only [List.map_cons, writerCallsOf, List.filterMap_cons] at ih2 ⊢
          simp only [hne, if_false]
          exact ih2
      rw [h0]
      have := ih (base + 1) j hj
      rw [show base + 1 + j = base + (j + 1) from by omega] at this
      simpa using this

theorem closeWritersGo_eq :
    ∀ (ws : List (EventWriter σ Ev × σ)) (base : Nat),
      closeWritersGo base ws =
        (List.zipWith SysCall.closeWriter (List.range' base ws.length)
          (ws.map fun p => (p.1.close p.2).2),
         (ws.map fun p => (p.1.close p.2).2).findSome? id) := by
  intro ws
  induction ws with
  | nil => intro base; rfl
  | cons p rest ih =>
    rcases p with ⟨ew, s⟩
    intro base
    rw [closeWritersGo, ih (base + 1)]
    simp only [List.map_cons, List.length_cons, List.range'_succ, List.zipWith_cons_cons]
    rw [List.findSome?_cons]
    rcases (ew.close s).2 with _ | er <;> rfl

/-- C3: the package `Close` after `K` queued events lets every worker run to
completion over all `K` events (each writer's full worker trace is in the
pre-close part of the pipeline trace, and its sub-queue is left drained to a
suffix `events.drop k`, empty for a writer that stayed healthy), and only
after all workers have finished (the wait-group/acknowledgement sequencing)
does any `EventWriter.Close` call appear: the trace splits into worker calls
followed by exactly one `Close` call per writer. -/
theorem CloseGo_drain_before_close {σ Ev : Type} (ws : List (EventWriter σ Ev × σ))
    (events : List Ev) :
    ∃ t1 t2,
      (CloseGo ws events).1 = t1 ++ t2 ∧
      (∀ c ∈ t1, ∃ i wc, c = SysCall.writerCall i wc) ∧
      (∀ c ∈ t2, ∃ i r, c = SysCall.closeWriter i r) ∧
      t2.length = ws.length ∧
      (∀ (i : Nat) (h : i < ws.length),
        writerCallsOf i t1 =
          (startEventWriterGo (ws.get ⟨i, h⟩).1 events (ws.get ⟨i, h⟩).2).2.1 ∧
        ∃ k, k ≤ events.length ∧
          (startEventWriterGo (ws.get ⟨i, h⟩).1 events (ws.get ⟨i, h⟩).2).2.2.1 =
            events.drop k) := by
  refine ⟨(writeEventsGo events 0 ws).2, (closeWritersGo 0 (writeEventsGo events 0 ws).1).1,
    rfl, ?_, ?_, ?_, ?_⟩
  · intro c hc
    rcases writeEventsGo_calls_shape events 0 ws c hc with ⟨i, wc, rfl, _⟩
    exact ⟨i, wc, rfl⟩
  · intro c hc
    rw [closeWritersGo_eq] at hc
    simp only at hc
    rcases List.mem_iff_get.1 hc with ⟨n, hn⟩
    rw [List.get_eq_getElem, List.getElem_zipWith] at hn
    exact ⟨_, _, hn.symm⟩
  · rw [closeWritersGo_eq]
    simp [writeEventsGo_fst]
  · intro i h
    constructor
    · have := writerCallsOf_writeEventsGo events ws 0 i h
      simpa using this
    · exact startEventWriterGo_drained_suffix (ws.get ⟨i, h⟩).1 events (ws.get ⟨i, h⟩).2

/-- Witness for C3: a single recording writer over two events. -/
theorem CloseGo_drain_before_close_witness :
    ∃ t1 t2,
      (CloseGo [(recordingWriter, ([] : List Nat))] [1, 2]).1 = t1 ++ t2 ∧
      (∀ c ∈ t1, ∃ i wc, c = SysCall.writerCall i wc) ∧
      (∀ c ∈ t2, ∃ i r, c = SysCall.closeWriter i r) ∧
      t2.length = 1 ∧
      writerCallsOf 0 t1 = (startEventWriterGo recordingWriter [1, 2] []).2.1 := by
  obtain ⟨t1, t2, h1, h2, h3, h4, h5⟩ :=
    CloseGo_drain_before_close [(recordingWriter, ([] : List Nat))] [1, 2]
  exact ⟨t1, t2, h1, h2, h3, h4, (h5 0 (by decide)).1⟩

/-- C4: `Close` performs, in order: close the ingress channel (the event list
is final), block until the completion acknowledgement (the whole worker trace
precedes the closes), then call `Close` on every registered writer in the
exact order they were passed to `Start` (indices `0, 1, …, n-1`), every
writer being closed exactly once; it returns the first non-nil close error,
later close errors being discarded. -/
theorem CloseGo_close_order_first_error {σ Ev : Type}
    (ws : List (EventWriter σ Ev × σ)) (events : List Ev) :
    ((writeEventsGo events 0 ws).1.map fun p => (p.1.close p.2).2).length = ws.length ∧
    (CloseGo ws events).1 =
      (writeEventsGo events 0 ws).2 ++
        List.zipWith SysCall.closeWriter (List.range ws.length)
          ((writeEventsGo events 0 ws).1.map fun p => (p.1.close p.2).2) ∧
    (CloseGo ws events).2 =
      ((writeEventsGo events 0 ws).1.map fun p => (p.1.close p.2).2).findSome? id := by
  have hlen : (writeEventsGo events 0 ws).1.length = ws.length := by
    rw [writeEventsGo_fst]; simp
  refine ⟨by simpa using hlen, ?_, ?_⟩
  · show (writeEventsGo events 0 ws).2 ++ (closeWritersGo 0 (writeEventsGo events 0 ws).1).1 = _
    rw [closeWritersGo_eq, List.range_eq_range', hlen]
  · show (closeWritersGo 0 (writeEventsGo events 0 ws).1).2 = _
    rw [closeWritersGo_eq]

/-- Witness for C2: the recording writer delivers `[7, 8, 9]` in order with
nothing drained, and the always-failing writer goes bad on the first event,
drains the rest, and delivers nothing. -/
theorem startEventWriter_order_and_drain_witness :
    ((startEventWriterGo recordingWriter [7, 8, 9] []).2.2.1 = [] ∧
      successfulWrites (startEventWriterGo recordingWriter [7, 8, 9] []).2.1 =
        [7, 8, 9]) ∧
    (∃ k, k < 3 ∧
      (startEventWriterGo alwaysFailWriter [7, 8, 9] 0).2.2.1 =
        List.drop (k + 1) [7, 8, 9] ∧
      successfulWrites (startEventWriterGo alwaysFailWriter [7, 8, 9] 0).2.1 =
        List.take k [7, 8, 9] ∧
      (∀ x res,
        WCall.write x res ∈ (startEventWriterGo alwaysFailWriter [7, 8, 9] 0).2.1 →
          x ∈ List.take (k + 1) [7, 8, 9]) ∧
      ∃ tr0, (startEventWriterGo alwaysFailWriter [7, 8, 9] 0).2.1 =
        tr0 ++ [WCall.handleError LogError.badEventWriter]) := by
  constructor
  · exact (startEventWriter_order_and_drain recordingWriter [7, 8, 9] []).1 rfl
  · have h := (startEventWriter_order_and_drain alwaysFailWriter [7, 8, 9] 0).2 rfl
    simpa using h

/-- C1: for every event writer whose `Write` always fails, the first failing
event gets exactly `maxNWriteErrors = 5` write attempts, each failed attempt
immediately followed by one `HandleError` call with the underlying error, and
then (in `startEventWriter`) exactly one further `HandleError` call with
`ErrBadEventWriter`, whose message carries the bound 5; and `writeEvent`
returns either `nil` or `ErrBadEventWriter` and nothing else. -/
theorem writeEvent_retry_bound {σ Ev : Type} (ew : EventWriter σ Ev)
    (f : σ → Ev → σ) (g : σ → Ev → LogError)
    (hfail : ∀ t x, ew.write t x = (f t x, some (g t x)))
    (e : Ev) (rest : List Ev) (s : σ) :
    writeEvent ew e s =
      ((failStep ew f g e)^[5] s,
       [WCall.write e (some (g s e)), WCall.handleError (g s e),
        WCall.write e (some (g ((failStep ew f g e)^[1] s) e)),
        WCall.handleError (g ((failStep ew f g e)^[1] s) e),
        WCall.write e (some (g ((failStep ew f g e)^[2] s) e)),
        WCall.handleError (g ((failStep ew f g e)^[2] s) e),
        WCall.write e (some (g ((failStep ew f g e)^[3] s) e)),
        WCall.handleError (g ((failStep ew f g e)^[3] s) e),
        WCall.write e (some (g ((failStep ew f g e)^[4] s) e)),
        WCall.handleError (g ((failStep ew f g e)^[4] s) e)],
       some LogError.badEventWriter) ∧
    startEventWriterGo ew (e :: rest) s =
      (ew.handleError ((failStep ew f g e)^[5] s) LogError.badEventWriter,
       (writeEvent ew e s).2.1 ++ [WCall.handleError LogError.badEventWriter],
       rest, true) ∧
    (∀ (ew2 : EventWriter σ Ev) (x : Ev) (t : σ),
      (writeEvent ew2 x t).2.2 = none ∨
        (writeEvent ew2 x t).2.2 = some LogError.badEventWriter) ∧
    LogError.badEventWriter.message =
      "EventWriter is bad, 5 faulty writes, EventWriter will be dropped" := by
  have hmain : writeEvent ew e s =
      ((failStep ew f g e)^[5] s,
       [WCall.write e (some (g s e)), WCall.handleError (g s e),
        WCall.write e (some (g ((failStep ew f g e)^[1] s) e)),
        WCall.handleError (g ((failStep ew f g e)^[1] s) e),
        WCall.write e (some (g ((failStep ew f g e)^[2] s) e)),
        WCall.handleError (g ((failStep ew f g e)^[2] s) e),
        WCall.write e (some (g ((failStep ew f g e)^[3] s) e)),
        WCall.handleError (g ((failStep ew f g e)^[3] s) e),
        WCall.write e (some (g ((failStep ew f g e)^[4] s) e)),
        WCall.handleError (g ((failStep ew f g e)^[4] s) e)],
       some LogError.badEventWriter) := by
    simp [writeEvent, maxNWriteErrors, writeEventLoop, hfail, failStep,
      Function.iterate_succ_apply, Function.iterate_zero_apply]
  refine ⟨hmain, ?_, ?_, rfl⟩
  · rw [hmain]
    simp [startEventWriterGo, hmain]
  · intro ew2 x t
    clear hmain
    unfold writeEvent
    generalize maxNWriteErrors = n
    induction n generalizing t with
    | zero => right; rfl
    | succ n ih =>
      unfold writeEventLoop
      match hw : ew2.write t x with
      | (s1, none) => left; simp [hw]
      | (s1, some err) => simpa [hw] using ih (ew2.handleError s1 err)

/-- Witness for C1: the always-failing writer at event 7 and state 0. -/
theorem writeEvent_retry_bound_witness :
    writeEvent alwaysFailWriter 7 0 =
      (5,
       [WCall.write 7 (some (LogError.otherError "boom")),
        WCall.handleError (LogError.otherError "boom"),
        WCall.write 7 (some (LogError.otherError "boom")),
        WCall.handleError (LogError.otherError "boom"),
        WCall.write 7 (some (LogError.otherError "boom")),
        WCall.handleError (LogError.otherError "boom"),
        WCall.write 7 (some (LogError.otherError "boom")),
        WCall.handleError (LogError.otherError "boom"),
        WCall.write 7 (some (LogError.otherError "boom")),
        WCall.handleError (LogError.otherError "boom")],
       some LogError.badEventWriter) ∧
    startEventWriterGo alwaysFailWriter [7, 8, 9] 0 =
      (5, (writeEvent alwaysFailWriter 7 0).2.1 ++
        [WCall.handleError LogError.badEventWriter], [8, 9], true) := by
  have h := writeEvent_retry_bound alwaysFailWriter
    (fun s _ => s + 1) (fun _ _ => LogError.otherError "boom")
    (fun _ _ => rfl) 7 [8, 9] 0
  refine ⟨?_, ?_⟩
  · simpa [failStep, alwaysFailWriter, Function.iterate_succ_apply,
      Function.iterate_zero_apply] using h.1
  · simpa [failStep, alwaysFailWriter, Function.iterate_succ_apply,
      Function.iterate_zero_apply] using h.2.1

/-- C5: the three protocol violations are fatal panics, never returned errors
and never silent no-ops: `Start` when already started panics with
`"logger: can only Start once"`; `Start` with zero writers panics with
`"logger: need atleast a single EventWriter to write to"`; and every log
operation called after `Close` panics by sending on the closed ingress
channel. -/
theorem protocol_violations_panic :
    (∀ (st : PkgState) (n : Nat), st.started = true →
      StartGo st n = Except.error "logger: can only Start once") ∧
    (∀ st : PkgState, st.started = false →
      StartGo st 0 =
        Except.error "logger: need atleast a single EventWriter to write to") ∧
    (∀ (st : PkgState) (now : Nat) (tags : Tags) (msg : String) (e : Event)
        (recv : GoValue) (trace : List Char), st.channelClosed = true →
      Debug now st tags msg = Except.error "send on closed channel" ∧
      Info now st tags msg = Except.error "send on closed channel" ∧
      Warn now st tags msg = Except.error "send on closed channel" ∧
      ErrorLog now st tags msg = Except.error "send on closed channel" ∧
      Fatal now st tags recv trace = Except.error "send on closed channel" ∧
      Thumbstone now st tags msg = Except.error "send on closed channel" ∧
      Log now st e = Except.error "send on closed channel") := by
  refine ⟨?_, ?_, ?_⟩
  · intro st n h; simp [StartGo, h]
  · intro st h; simp [StartGo, h]
  · intro st now tags msg e recv trace h
    simp [Debug, Info, Warn, ErrorLog, Fatal, Thumbstone, Log, sendEvent, h]

/-- Witness for C5: each violation evaluated on a concrete state. -/
theorem protocol_violations_panic_witness :
    StartGo ⟨true, false, []⟩ 1 = Except.error "logger: can only Start once" ∧
    StartGo ⟨false, false, []⟩ 0 =
      Except.error "logger: need atleast a single EventWriter to write to" ∧
    Debug 0 ⟨true, true, []⟩ [] "m" = Except.error "send on closed channel" ∧
    Log 0 ⟨true, true, []⟩ ⟨0, 0, [], "", none⟩ =
      Except.error "send on closed channel" := by
  have h := protocol_violations_panic
  have h3 := h.2.2 ⟨true, true, []⟩ 0 [] "m" ⟨0, 0, [], "", none⟩
    ⟨none, none, none, none, ""⟩ [] rfl
  exact ⟨h.1 ⟨true, false, []⟩ 1 rfl, h.2.1 ⟨false, false, []⟩ rfl, h3.1,
    h3.2.2.2.2.2.2⟩

/-- C6: `Log` enqueues the caller-built event with only the timestamp
replaced by the current time; `Type`, `Tags`, `Message` and `Data` are
enqueued exactly as supplied. -/
theorem Log_overwrites_only_timestamp (now : Nat) (st : PkgState) (e : Event)
    (h : st.channelClosed = false) :
    Log now st e =
      Except.ok { st with queued := st.queued ++ [{ e with timestamp := now }] } ∧
    ({ e with timestamp := now }).timestamp = now ∧
    ({ e with timestamp := now }).eventType = e.eventType ∧
    ({ e with timestamp := now }).tags = e.tags ∧
    ({ e with timestamp := now }).message = e.message ∧
    ({ e with timestamp := now }).data = e.data := by
  refine ⟨?_, rfl, rfl, rfl, rfl, rfl⟩
  simp [Log, sendEvent, h]

/-- Witness for C6: a concrete event through `Log` on an open channel. -/
theorem Log_overwrites_only_timestamp_witness :
    Log 42 ⟨true, false, []⟩ ⟨ErrorEvent, 7, ["t1"], "msg", none⟩ =
      Except.ok ⟨true, false, [⟨ErrorEvent, 42, ["t1"], "msg", none⟩]⟩ := by
  have h := Log_overwrites_only_timestamp 42 ⟨true, false, []⟩
    ⟨ErrorEvent, 7, ["t1"], "msg", none⟩ rfl
  simpa using h.1

/-- C7: `util.InterfaceToString` follows the type switch's precedence:
`string` content first, then the `fmt.Stringer` result, then the decoded
`[]byte`, then the `error` message, and otherwise the `%v` default
formatting. -/
theorem InterfaceToString_precedence :
    (∀ (v : GoValue) (s : String), v.asString = some s →
      InterfaceToString v = s) ∧
    (∀ (v : GoValue) (r : String), v.asString = none → v.stringerOut = some r →
      InterfaceToString v = r) ∧
    (∀ (v : GoValue) (b : String), v.asString = none → v.stringerOut = none →
      v.asBytes = some b → InterfaceToString v = b) ∧
    (∀ (v : GoValue) (m : String), v.asString = none → v.stringerOut = none →
      v.asBytes = none → v.errorOut = some m → InterfaceToString v = m) ∧
    (∀ v : GoValue, v.asString = none → v.stringerOut = none →
      v.asBytes = none → v.errorOut = none →
      InterfaceToString v = v.defaultFmt) := by
  refine ⟨?_, ?_, ?_, ?_, ?_⟩ <;> intros <;> simp [InterfaceToString, *]

/-- Witness for C7: one value per switch case, including values that would
also match later cases. -/
theorem InterfaceToString_precedence_witness :
    InterfaceToString ⟨some "s", some "x", some "x", some "x", "x"⟩ = "s" ∧
    InterfaceToString ⟨none, some "str", none, some "err", "x"⟩ = "str" ∧
    InterfaceToString ⟨none, none, some "bytes", some "err", "x"⟩ = "bytes" ∧
    InterfaceToString ⟨none, none, none, some "err", "x"⟩ = "err" ∧
    InterfaceToString ⟨none, none, none, none, "123"⟩ = "123" := by
  have h := InterfaceToString_precedence
  exact ⟨h.1 _ _ rfl, h.2.1 _ _ rfl rfl, h.2.2.1 _ _ rfl rfl rfl,
    h.2.2.2.1 _ _ rfl rfl rfl rfl, h.2.2.2.2 _ rfl rfl rfl rfl⟩

/-- C10 (against the code): at the default tables, `EventType(7)` (the
boundary `len(eventTypeIndices)-1` accepted by `isDefinedEventType`) makes
`EventType.String` read `eventTypeIndices[8]`, out of range (`none`), so
`String` is not total; all seven registered types return their names, and
every type from 8 on returns the `"EventType(n)"` fallback. -/
theorem eventTypeString_boundary_out_of_range :
    isDefinedEventType defaultEventTypeTable 7 = true ∧
    EventTypeString defaultEventTypeTable 7 = none ∧
    (List.range 7).map (EventTypeString defaultEventTypeTable) =
      [some "Debug", some "Info", some "Warn", some "Error", some "Fatal",
       some "Thumb", some "Log"] ∧
    (∀ t : Nat, 8 ≤ t → EventTypeString defaultEventTypeTable t =
      some ("EventType(" ++ toString t ++ ")")) := by
  refine ⟨by decide, by decide, by decide, ?_⟩
  intro t ht
  have h8 : isDefinedEventType defaultEventTypeTable t = false := by
    simp only [isDefinedEventType, defaultEventTypeTable, decide_eq_false_iff_not]
    simp only [List.length_cons, List.length_nil]
    omega
  simp [EventTypeString, h8]

/-- Witness for C10: the fallback rendering at the concrete type 9. -/
theorem eventTypeString_boundary_out_of_range_witness :
    EventTypeString defaultEventTypeTable 9 =
      some ("EventType(" ++ toString 9 ++ ")") :=
  eventTypeString_boundary_out_of_range.2.2.2 9 (by decide)

theorem unquoteBody_quote (s : List Char) :
    unquoteBody (s.flatMap quoteChar ++ ['"']) = some s := by
  induction s with
  | nil => rfl
  | cons c rest ih =>
    by_cases h1 : c = '"'
    · subst h1
      have hq : quoteChar '"' = ['\\', '"'] := by decide
      simp only [List.flatMap_cons, hq, List.cons_append, List.append_assoc]
      simp [unquoteBody, ih]
    · by_cases h2 : c = '\\'
      · subst h2
        have hq : quoteChar '\\' = ['\\', '\\'] := by decide
        simp only [List.flatMap_cons, hq, List.cons_append, List.append_assoc]
        simp [unquoteBody, ih]
      · have hq : quoteChar c = [c] := by simp [quoteChar, h1, h2]
        simp only [List.flatMap_cons, hq, List.singleton_append, List.cons_append]
        rw [unquoteBody.eq_def]
        simp [h1, h2, ih]

/-- C9 counterexample: the claim's "parsing the rendering yields the original
Event" fails: two distinct events with printable tags share the same
plain-text rendering (tag lists `["a, b"]` and `["a", "b"]`), and two
distinct events share the same JSON rendering (a `string` data value versus a
differently-typed value with the same `%v` formatting), so neither rendering
determines the original event. -/
theorem event_rendering_not_injective :
    (EventString defaultEventTypeTable ⟨0, 0, ["a, b"], "m", none⟩ =
        EventString defaultEventTypeTable ⟨0, 0, ["a", "b"], "m", none⟩ ∧
      (⟨0, 0, ["a, b"], "m", none⟩ : Event) ≠ ⟨0, 0, ["a", "b"], "m", none⟩) ∧
    (EventMarshalJSON defaultEventTypeTable
        ⟨0, 0, ["t"], "m", some ⟨some "0", none, none, none, "0"⟩⟩ =
      EventMarshalJSON defaultEventTypeTable
        ⟨0, 0, ["t"], "m", some ⟨none, none, none, none, "0"⟩⟩ ∧
      (⟨0, 0, ["t"], "m", some ⟨some "0", none, none, none, "0"⟩⟩ : Event) ≠
        ⟨0, 0, ["t"], "m", some ⟨none, none, none, none, "0"⟩⟩) := by
  refine ⟨⟨?_, by decide⟩, ⟨?_, by decide⟩⟩ <;> rfl

/-- C9 amended: a tag containing a quote character, such as `tag"1"`, is
rendered in the JSON output in escaped form `tag\"1\"` (via quoting) and
appears verbatim, unescaped, in the plain-text rendering; the quoting of each
tag round-trips (unquoting recovers the tag), but the full `Event` rendering
is not uniquely parseable (see the counterexample). -/
theorem tags_quote_escape_roundtrip :
    String.mk (TagsMarshalJSON ["tag\"1\""]) = "[\"tag\\\"1\\\"\"]" ∧
    TagsString ["tag\"1\""] = "tag\"1\"" ∧
    (∀ t : String, TagsString [t] = t) ∧
    (∀ s : List Char, goUnquote (goQuote s) = some s) := by
  refine ⟨by decide, by decide, ?_, ?_⟩
  · intro t
    cases t with
    | mk l =>
      simp only [TagsString, TagsBytes, String.toList, List.length_cons,
        List.length_nil, List.foldl_cons, List.foldl_nil, List.nil_append]
      rw [if_neg (by simp)]
      have hlen : (l ++ [',', ' ']).length - 2 = l.length := by simp
      rw [hlen, List.take_left' rfl]
  · intro s
    show unquoteBody (s.flatMap quoteChar ++ ['"']) = some s
    exact unquoteBody_quote s

theorem findIdx_newline (l r : List Char) (hl : newLine ∉ l) :
    (l ++ newLine :: r).findIdx? (fun c => c == newLine) = some l.length := by
  induction l with
  | nil => simp
  | cons c l ih =>
    rw [List.mem_cons, not_or] at hl
    have hc : (c == newLine) = false := by
      simp only [beq_eq_false_iff_ne, ne_eq]
      exact fun h => hl.1 (h ▸ rfl)
    simp only [List.cons_append, List.findIdx?_cons, hc, Bool.false_eq_true,
      if_false, List.findIdx?_start_succ, ih hl.2, Option.map_some, List.length_cons]
    simp

theorem advance_step (st : List Char) (pos k : Nat) (l r : List Char)
    (hdrop : st.drop (pos + 1) = l ++ newLine :: r) (hl : newLine ∉ l) :
    advanceNewlines st pos (k + 1) = advanceNewlines st (pos + l.length + 1) k := by
  rw [advanceNewlines.eq_def]
  simp only [hdrop, findIdx_newline l r hl]

theorem removeFns_five_lines (l1 l2 l3 l4 l5 rest : List Char)
    (h1 : newLine ∉ l1) (h2 : newLine ∉ l2) (h3 : newLine ∉ l3)
    (h4 : newLine ∉ l4) (h5 : newLine ∉ l5) :
    removeFnsFromStack
        (l1 ++ (newLine :: (l2 ++ (newLine :: (l3 ++ (newLine ::
          (l4 ++ (newLine :: (l5 ++ (newLine :: rest)))))))))) =
      some (l1 ++ (newLine :: rest)) := by
  set st := l1 ++ (newLine :: (l2 ++ (newLine :: (l3 ++ (newLine ::
    (l4 ++ (newLine :: (l5 ++ (newLine :: rest))))))))) with hst
  have hfind : st.findIdx? (fun c => c == newLine) = some l1.length :=
    findIdx_newline l1 _ h1
  have hd1 : st.drop (l1.length + 1) =
      l2 ++ (newLine :: (l3 ++ (newLine :: (l4 ++ (newLine ::
        (l5 ++ (newLine :: rest))))))) := by
    rw [hst]
    rw [show l1 ++ (newLine :: (l2 ++ (newLine :: (l3 ++ (newLine ::
        (l4 ++ (newLine :: (l5 ++ (newLine :: rest))))))))) =
      (l1 ++ [newLine]) ++ (l2 ++ (newLine :: (l3 ++ (newLine :: (l4 ++ (newLine ::
        (l5 ++ (newLine :: rest)))))))) from by simp]
    exact List.drop_left' (by simp)
  have hd2 : st.drop (l1.length + l2.length + 1 + 1) =
      l3 ++ (newLine :: (l4 ++ (newLine :: (l5 ++ (newLine :: rest))))) := by
    rw [hst]
    rw [show l1 ++ (newLine :: (l2 ++ (newLine :: (l3 ++ (newLine ::
        (l4 ++ (newLine :: (l5 ++ (newLine :: rest))))))))) =
      (l1 ++ [newLine] ++ l2 ++ [newLine]) ++
        (l3 ++ (newLine :: (l4 ++ (newLine :: (l5 ++ (newLine :: rest)))))) from by simp]
    exact List.drop_left' (by simp; omega)
  have hd3 : st.drop (l1.length + l2.length + l3.length + 2 + 1) =
      l4 ++ (newLine :: (l5 ++ (newLine :: rest))) := by
    rw [hst]
    rw [show l1 ++ (newLine :: (l2 ++ (newLine :: (l3 ++ (newLine ::
        (l4 ++ (newLine :: (l5 ++ (newLine :: rest))))))))) =
      (l1 ++ [newLine] ++ l2 ++ [newLine] ++ l3 ++ [newLine]) ++
        (l4 ++ (newLine :: (l5 ++ (newLine :: rest)))) from by simp]
    exact List.drop_left' (by simp; omega)
  have hd4 : st.drop (l1.length + l2.length + l3.length + l4.length + 3 + 1) =
      l5 ++ (newLine :: rest) := by
    rw [hst]
    rw [show l1 ++ (newLine :: (l2 ++ (newLine :: (l3 ++ (newLine ::
        (l4 ++ (newLine :: (l5 ++ (newLine :: rest))))))))) =
      (l1 ++ [newLine] ++ l2 ++ [newLine] ++ l3 ++ [newLine] ++ l4 ++ [newLine]) ++
        (l5 ++ (newLine :: rest)) from by simp]
    exact List.drop_left' (by simp; omega)
  have hadv : advanceNewlines st l1.length 4 =
      l1.length + l2.length + l3.length + l4.length + l5.length + 4 := by
    rw [advance_step st l1.length 3 l2 _ hd1 h2]
    rw [show l1.length + l2.length + 1 = l1.length + l2.length + 1 + 0 from rfl]
    rw [advance_step st _ 2 l3 _ (by rw [show l1.length + l2.length + 1 + 0 + 1 =
      l1.length + l2.length + 1 + 1 from rfl]; exact hd2) h3]
    rw [advance_step st _ 1 l4 _ (by
      rw [show l1.length + l2.length + 1 + 0 + l3.length + 1 + 1 =
        l1.length + l2.length + l3.length + 2 + 1 from by omega]; exact hd3) h4]
    rw [advance_step st _ 0 l5 _ (by
      rw [show l1.length + l2.length + 1 + 0 + l3.length + 1 + l4.length + 1 + 1 =
        l1.length + l2.length + l3.length + l4.length + 3 + 1 from by omega]; exact hd4) h5]
    rw [advanceNewlines]
    omega
  have htake : st.take l1.length = l1 := by
    rw [hst]; exact List.take_left' rfl
  have hdropEnd : st.drop
      (l1.length + l2.length + l3.length + l4.length + l5.length + 4) =
      newLine :: rest := by
    rw [hst]
    rw [show l1 ++ (newLine :: (l2 ++ (newLine :: (l3 ++ (newLine ::
        (l4 ++ (newLine :: (l5 ++ (newLine :: rest))))))))) =
      (l1 ++ [newLine] ++ l2 ++ [newLine] ++ l3 ++ [newLine] ++ l4 ++ [newLine] ++ l5) ++
        (newLine :: rest) from by simp]
    exact List.drop_left' (by simp; omega)
  have hmain : removeFnsFromStack st =
      some (st.take l1.length ++ st.drop (advanceNewlines st l1.length 4)) := by
    rw [removeFnsFromStack.eq_def, hfind]
  rw [hmain, hadv, htake, hdropEnd]

theorem doubling_sizes (b k : Nat) :
    b :: (List.range (k + 1)).map (fun i => 2 * b * 2 ^ i) =
      (List.range (k + 1 + 1)).map (fun i => b * 2 ^ i) := by
  conv_rhs => rw [List.range_succ_eq_map]
  simp only [List.map_cons, List.map_map, pow_zero, mul_one]
  congr 1
  apply List.map_congr_left
  intro i _
  simp only [Function.comp_apply, Nat.succ_eq_add_one]
  ring

theorem getStackTraceLoop_doubling (trace : List Char) :
    ∀ (fuel bufLen : Nat), 0 < bufLen → trace.length < bufLen * 2 ^ fuel →
      ∃ k, k ≤ fuel ∧
        getStackTraceLoop trace (fuel + 1) bufLen =
          ((List.range (k + 1)).map (fun i => bufLen * 2 ^ i),
            removeFnsFromStack trace) ∧
        trace.length < bufLen * 2 ^ k ∧
        (∀ i, i < k → bufLen * 2 ^ i ≤ trace.length) := by
  intro fuel
  induction fuel with
  | zero =>
    intro bufLen hpos hlen
    rw [pow_zero, mul_one] at hlen
    refine ⟨0, Nat.le_refl 0, ?_, by simpa, by omega⟩
    rw [getStackTraceLoop]
    have hl : runtimeStack bufLen trace < bufLen := by
      simp only [runtimeStack]; omega
    rw [if_pos hl]
    have hr : runtimeStack bufLen trace = trace.length := by
      simp only [runtimeStack]; omega
    rw [hr, List.take_length]
    simp [List.range_succ]
  | succ fuel ih =>
    intro bufLen hpos hlen
    by_cases hsmall : trace.length < bufLen
    · refine ⟨0, Nat.zero_le _, ?_, by simpa, by omega⟩
      rw [getStackTraceLoop]
      have hl : runtimeStack bufLen trace < bufLen := by
        simp only [runtimeStack]; omega
      rw [if_pos hl]
      have hr : runtimeStack bufLen trace = trace.length := by
        simp only [runtimeStack]; omega
      rw [hr, List.take_length]
      simp [List.range_succ]
    · have hge : bufLen ≤ trace.length := Nat.le_of_not_lt hsmall
      have h2 : trace.length < 2 * bufLen * 2 ^ fuel := by
        have : bufLen * 2 ^ (fuel + 1) = 2 * bufLen * 2 ^ fuel := by ring
        omega
      rcases ih (2 * bufLen) (by omega) h2 with ⟨k, hk, hloop, hlt, hall⟩
      refine ⟨k + 1, Nat.succ_le_succ hk, ?_, ?_, ?_⟩
      · rw [getStackTraceLoop]
        have hnl : ¬ runtimeStack bufLen trace < bufLen := by
          simp only [runtimeStack]; omega
        rw [if_neg hnl]
        show (bufLen :: (getStackTraceLoop trace (fuel + 1) (2 * bufLen)).1,
          (getStackTraceLoop trace (fuel + 1) (2 * bufLen)).2) = _
        rw [hloop]
        simp only [Prod.mk.injEq]
        exact ⟨doubling_sizes bufLen k, trivial⟩
      · have : bufLen * 2 ^ (k + 1) = 2 * bufLen * 2 ^ k := by ring
        omega
      · intro i hi
        cases i with
        | zero => simpa using hge
        | succ j =>
          have : bufLen * 2 ^ (j + 1) = 2 * bufLen * 2 ^ j := by ring
          have hj := hall j (by omega)
          omega

/-- C8: `getStackTrace` starts from the fixed `defaultStackSize` buffer and,
whenever the runtime fills the whole buffer, retries with a buffer of exactly
twice the previous length (sizes `defaultStackSize * 2^i`, each non-final one
at most the trace length, the final one strictly larger) until the trace fits
strictly inside; the result is the trace with the second through fifth lines
removed, the first line and all remaining lines kept. -/
theorem getStackTrace_doubling_and_strip :
    (∀ (trace : List Char) (fuel : Nat),
      trace.length < defaultStackSize * 2 ^ fuel →
      ∃ k, k ≤ fuel ∧
        getStackTrace trace (fuel + 1) =
          ((List.range (k + 1)).map (fun i => defaultStackSize * 2 ^ i),
            removeFnsFromStack trace) ∧
        trace.length < defaultStackSize * 2 ^ k ∧
        (∀ i, i < k → defaultStackSize * 2 ^ i ≤ trace.length)) ∧
    (∀ l1 l2 l3 l4 l5 rest : List Char, newLine ∉ l1 → newLine ∉ l2 →
      newLine ∉ l3 → newLine ∉ l4 → newLine ∉ l5 →
      removeFnsFromStack
          (l1 ++ (newLine :: (l2 ++ (newLine :: (l3 ++ (newLine ::
            (l4 ++ (newLine :: (l5 ++ (newLine :: rest)))))))))) =
        some (l1 ++ (newLine :: rest))) :=
  ⟨fun trace fuel h =>
    getStackTraceLoop_doubling trace fuel defaultStackSize (by decide) h,
   removeFns_five_lines⟩

/-- Witness for C8: a five-line trace is stripped to its first line plus the
sixth, and a one-character trace fits the first buffer (no doubling). -/
theorem getStackTrace_doubling_and_strip_witness :
    removeFnsFromStack
        (['a'] ++ (newLine :: (['b'] ++ (newLine :: (['c'] ++ (newLine ::
          (['d'] ++ (newLine :: (['e'] ++ (newLine :: ['f'])))))))))) =
      some (['a'] ++ (newLine :: ['f'])) ∧
    ∃ k, k ≤ 3 ∧
      getStackTrace ['x'] 4 =
        ((List.range (k + 1)).map (fun i => defaultStackSize * 2 ^ i),
          removeFnsFromStack ['x']) := by
  constructor
  · exact getStackTrace_doubling_and_strip.2 ['a'] ['b'] ['c'] ['d'] ['e'] ['f']
      (by decide) (by decide) (by decide) (by decide) (by decide)
  · obtain ⟨k, hk, heq, _, _⟩ :=
      getStackTrace_doubling_and_strip.1 ['x'] 3 (by decide)
    exact ⟨k, hk, heq⟩

end Logger

